import Mathlib

/-!
# Verification of the `scli` command-tree library

A shallow embedding of the `scli` Go package (files `scli.go`, `args.go` and
the error declarations) together with proofs about its parse/run state
machine, its argument validators and its error classification.

Modelling conventions:

* A Go `*Command` tree is the mutual inductive `Cmd`/`Cmds`.  Pointer
  mutation performed by `Parse`/`Run` is modelled by returning the updated
  tree.  The unexported pointer field `selected` is modelled by `Sel`:
  `Sel.self` stands for `c.selected == c` (the node points at itself) and
  `Sel.child i` stands for `c.selected == c.Subcommands[i]`.
* Go `error` values are the inductive `GoErr`; `errors.Is` matching against
  the sentinels `flag.ErrHelp`, `ErrInvalidArguments` and `ErrUnparsed` is
  modelled by the `errorsIs…` predicates, and the `Error()` strings by
  `goErrMessage`.
* The flag binder is Go's standard `flag` package, an external collaborator
  of the library.  The library only ever needs it on `FlagSet`s with no
  registered flags (every flag set the claims exercise), so `parseFlags`
  transcribes `flag.FlagSet.Parse`/`parseOne` for a flag set whose `formal`
  map is empty, including the `ErrorHandling` modes (`ContinueOnError`
  returns the error, `ExitOnError` calls `os.Exit`, modelled by
  `Outcome.exited`).  `os.Exit` and `panic` end the process; they are
  modelled as the terminal outcomes `exited`/`panicked` of one invocation.
* Usage rendering (`FlagSet.Usage`, wired by `Parse` to print
  `UsageFunc(c)`) is modelled as an event list: each rendering appends the
  name of the node whose usage was printed.  The rendered text itself is
  irrelevant to every claim, so `defaultUsageFunc` is not transcribed.
* `context.Context` is never inspected by the library, only threaded into
  `Exec`; it is modelled by the stand-in type `Ctx`.
* Go `strings.EqualFold` is modelled by `eqFold` (case folding via
  `String.toLower`), which agrees with Go on the ASCII names and aliases the
  specification exercises.
-/

/-- The `ErrorHandling` mode of a Go `flag.FlagSet`
(`flag.ContinueOnError`, `flag.ExitOnError`, `flag.PanicOnError`). -/
inductive ErrorHandling where
  | continueOnError
  | exitOnError
  | panicOnError
deriving DecidableEq, Repr

/-- A Go `flag.FlagSet` with no registered flags: its name and its error
handling mode.  (`scli` lazily creates `flag.NewFlagSet(c.Name(), flag.ExitOnError)`
when a command carries none, and the test suite passes sets created with
`flag.ContinueOnError`.) -/
structure FlagSet where
  name : String
  errorHandling : ErrorHandling
deriving DecidableEq, Repr

/-- Go `error` values produced by the library and its flag binder:
`flag.ErrHelp`, the two binder syntax failures, `NoExecError` (carrying the
offending command's name, its identity), `ErrInvalidArguments`
(`invalidArgs none` is the bare sentinel, `invalidArgs (some m)` is
`fmt.Errorf("%w: %s", ErrInvalidArguments, m)`), `ErrUnparsed`, and opaque
errors returned by a user `Exec` function. -/
inductive GoErr where
  | errHelp
  | badToken (tok : String)
  | notDefined (flagName : String)
  | noExec (cmdName : String)
  | invalidArgs (wrapped : Option String)
  | unparsed
  | other (msg : String)
deriving DecidableEq, Repr

/-- The `Error()` string of each modelled Go error. -/
def goErrMessage : GoErr → String
  | .errHelp => "flag: help requested"
  | .badToken tok => "bad flag syntax: " ++ tok
  | .notDefined flagName => "flag provided but not defined: -" ++ flagName
  | .noExec cmdName => s!"terminal command ({cmdName}) does not define a Exec function"
  | .invalidArgs none => "invalid arguments"
  | .invalidArgs (some m) => "invalid arguments: " ++ m
  | .unparsed => "command tree is unparsed, can't run"
  | .other msg => msg

/-- `errors.Is(e, flag.ErrHelp)`. -/
def errorsIsHelp : GoErr → Bool
  | .errHelp => true
  | _ => false

/-- `errors.Is(e, ErrInvalidArguments)`: true for the sentinel itself and for
every error produced by wrapping it with `fmt.Errorf("%w: %s", …)`. -/
def errorsIsInvalidArguments : GoErr → Bool
  | .invalidArgs _ => true
  | _ => false

/-- `errors.Is(e, ErrUnparsed)`. -/
def errorsIsUnparsed : GoErr → Bool
  | .unparsed => true
  | _ => false

/-- The outcome of one library invocation: a `nil` error, a returned Go
error, a process exit (`os.Exit`, from `flag.ExitOnError`), or a panic
(`flag.PanicOnError`). -/
inductive Outcome where
  | ok
  | err (e : GoErr)
  | exited (code : Nat)
  | panicked (e : GoErr)
deriving DecidableEq, Repr

/-- Result of `flag.FlagSet.Parse`: the recorded positional remainder
(`FlagSet.Args()`, meaningful when `out = .ok`), the usage-render events it
emitted, and its outcome. -/
structure BindRes where
  positional : List String
  renders : List String
  out : Outcome
deriving DecidableEq, Repr

/-- Error handling at the end of `flag.FlagSet.Parse` (its `switch
f.errorHandling`): `ContinueOnError` returns the error, `ExitOnError` exits
with status 0 for `ErrHelp` and 2 otherwise, `PanicOnError` panics.  In each
failing case `parseOne` has already rendered usage (`f.usage()` for `-h`,
`failf` for syntax errors), recorded here as one render event for the
command whose usage hook is installed. -/
def bindFail (render : String) (eh : ErrorHandling) (e : GoErr) : BindRes :=
  match eh with
  | .continueOnError => ⟨[], [render], .err e⟩
  | .exitOnError => ⟨[], [render], .exited (if e = .errHelp then 0 else 2)⟩
  | .panicOnError => ⟨[], [render], .panicked e⟩

/-- `flag.FlagSet.Parse` for a flag set with no registered flags,
transcribed from Go's `flag.(*FlagSet).parseOne`:

* an empty vector, a token shorter than two bytes, or one not starting with
  `-` stops flag parsing and leaves the whole remainder positional;
* a bare `--` is consumed and stops flag parsing;
* `-`/`=` right after the leading minuses is `bad flag syntax`;
* otherwise the flag name (up to `=`) is looked up; with no flags registered
  the lookup fails, `-h`/`-help` renders usage and yields `flag.ErrHelp`,
  anything else is `flag provided but not defined`.

Since no flag can ever be consumed successfully, at most one `parseOne`
step does more than stop, so the Go loop needs no recursion here. -/
def parseFlags (render : String) (eh : ErrorHandling) (argv : List String) : BindRes :=
  match argv with
  | [] => ⟨[], [], .ok⟩
  | s :: rest =>
    let cs := s.toList
    if cs.length < 2 ∨ cs.head? ≠ some '-' then ⟨s :: rest, [], .ok⟩
    else if cs = ['-', '-'] then ⟨rest, [], .ok⟩
    else
      let name := if cs.get? 1 = some '-' then cs.drop 2 else cs.drop 1
      if name.length = 0 ∨ name.head? = some '-' ∨ name.head? = some '=' then
        bindFail render eh (.badToken s)
      else
        let fname := (name.takeWhile (fun ch => ch ≠ '=')).asString
        if fname = "help" ∨ fname = "h" then bindFail render eh .errHelp
        else bindFail render eh (.notDefined fname)

/-! ## The validator pipeline (`args.go`) -/

/-- `NoArgs` (args.go): fails iff any arguments are present.  The message
string (typo included) is the source's. -/
def NoArgs (args : List String) : Option String :=
  if args.length > 0 then
    let l := args.length
    some s!"was expecting to receive no arguemetns received {l}"
  else none

/-- `MinArgs` (args.go). -/
def MinArgs (n : Int) : List String → Option String := fun args =>
  if (args.length : Int) < n then
    let l := args.length
    some s!"requires at least {n} arg(s), only received {l}"
  else none

/-- `MaxArgs` (args.go). -/
def MaxArgs (n : Int) : List String → Option String := fun args =>
  if (args.length : Int) > n then
    let l := args.length
    some s!"requires at most {n} arg(s), received {l}"
  else none

/-- `ExactArgs` (args.go). -/
def ExactArgs (n : Int) : List String → Option String := fun args =>
  if (args.length : Int) ≠ n then
    let l := args.length
    some s!"requires exactly {n} arg(s), received {l}"
  else none

/-- `RangeArgs` (args.go). -/
def RangeArgs (lo hi : Int) : List String → Option String := fun args =>
  let l := (args.length : Int)
  if l < lo ∨ l > hi then
    some s!"requires between {lo} and {hi} arg(s), received {l}"
  else none

/-- The closure returned by `OnlyValidArgs` for a non-empty allowed list:
walks the arguments and fails at the first one absent from the allowed set
(`validSet` membership is list membership of the same strings). -/
def onlyValidLoop (validArgs : List String) : List String → Option String
  | [] => none
  | a :: rest =>
    if validArgs.contains a then onlyValidLoop validArgs rest
    else
      let vs := String.intercalate ", " validArgs
      some s!"requires valid arugmenets of {vs}, received {a}"

/-- `OnlyValidArgs` (args.go): for an empty allowed list it returns the Go
`nil` validator (`none`), otherwise the membership-checking closure. -/
def OnlyValidArgs (validArgs : List String) : Option (List String → Option String) :=
  if validArgs.length = 0 then none
  else some (onlyValidLoop validArgs)

/-- `CombineValidator` (args.go): runs the validators in order and returns
the first failure. -/
def CombineValidator (validators : List (List String → Option String)) :
    List String → Option String := fun args =>
  match validators with
  | [] => none
  | v :: rest =>
    match v args with
    | some e => some e
    | none => CombineValidator rest args

/-- The guard `scli.go:108` puts around a command's `ArgsValidator`: a Go
`nil` validator is skipped (no error), any other is invoked. -/
def runArgsValidator : Option (List String → Option String) → List String → Option String
  | none, _ => none
  | some v, args => v args

/-! ## The command tree (`scli.go`) -/

/-- Stand-in for the `context.Context` threaded from `Run` into `Exec`;
the library itself never inspects it. -/
structure Ctx where
  token : Nat
deriving DecidableEq, Repr

/-- The unexported `selected *Command` field: `unset` is the Go `nil`
pointer, `self` means `c.selected == c`, and `child i` means
`c.selected == c.Subcommands[i]`. -/
inductive Sel where
  | unset
  | self
  | child (i : Nat)
deriving DecidableEq, Repr

mutual
/-- The `Command` struct of `scli.go`.  `UsageFunc` is not carried: `Parse`
installs `defaultUsageFunc` when it is absent, and rendering is modelled as
events naming the node, so the hook has no further observable effect.
`exec` is `Exec`, `args` the unexported remaining-arguments field. -/
inductive Cmd where
  | mk (usage : String) (aliases : List String) (subcommands : Cmds)
       (flagSet : Option FlagSet)
       (argsValidator : Option (List String → Option String))
       (exec : Option (Ctx → List String → Option GoErr))
       (selected : Sel) (args : List String)

/-- The `Subcommands []*Command` slice. -/
inductive Cmds where
  | nil
  | cons (c : Cmd) (cs : Cmds)
end

def Cmd.usage : Cmd → String
  | .mk u _ _ _ _ _ _ _ => u

def Cmd.aliases : Cmd → List String
  | .mk _ a _ _ _ _ _ _ => a

def Cmd.subcommands : Cmd → Cmds
  | .mk _ _ s _ _ _ _ _ => s

def Cmd.flagSet : Cmd → Option FlagSet
  | .mk _ _ _ fs _ _ _ _ => fs

def Cmd.argsValidator : Cmd → Option (List String → Option String)
  | .mk _ _ _ _ v _ _ _ => v

def Cmd.exec : Cmd → Option (Ctx → List String → Option GoErr)
  | .mk _ _ _ _ _ e _ _ => e

def Cmd.selected : Cmd → Sel
  | .mk _ _ _ _ _ _ s _ => s

def Cmd.args : Cmd → List String
  | .mk _ _ _ _ _ _ _ a => a

/-- First whitespace-delimited word of a usage string (`strings.Index(name, " ")`
then the prefix): the command name derived in `Command.Name` (scli.go:61). -/
def nameOfUsage (u : String) : String :=
  (u.toList.takeWhile (fun ch => ch ≠ ' ')).asString

/-- `Command.Name` (scli.go:61): the first word of `Usage`. -/
def Cmd.Name (c : Cmd) : String := nameOfUsage c.usage

/-- `strings.EqualFold`, modelled by lower-casing both sides character by
character (exact on the ASCII names the specification exercises). -/
def eqFold (a b : String) : Bool :=
  a.toList.map Char.toLower == b.toList.map Char.toLower

/-- `Command.selectedBy` (scli.go:158): the candidate token is compared
case-insensitively against the canonical name and then each alias, in
order (`append([]string{c.Name()}, c.Aliases...)`). -/
def Cmd.selectedBy (c : Cmd) (name : String) : Bool :=
  (c.Name :: c.aliases).any (fun s => eqFold name s)

/-- Indexing into a `Subcommands` slice. -/
def Cmds.get? : Cmds → Nat → Option Cmd
  | .nil, _ => none
  | .cons c _, 0 => some c
  | .cons _ cs, n + 1 => Cmds.get? cs n

/-- In-place update of one element of a `Subcommands` slice (the pointer
mutation a recursive `Parse` performs on the selected child). -/
def Cmds.set : Cmds → Nat → Cmd → Cmds
  | .nil, _, _ => .nil
  | .cons _ cs, 0, d => .cons d cs
  | .cons c cs, n + 1, d => .cons c (Cmds.set cs n d)

def Cmds.length : Cmds → Nat
  | .nil => 0
  | .cons _ cs => Cmds.length cs + 1

mutual
/-- A tree as a caller can construct it: the unexported `selected` pointer
is `nil` on every node (no `Parse` has touched it). -/
def Cmd.fresh : Cmd → Bool
  | .mk _ _ subs _ _ _ sel _ => decide (sel = Sel.unset) && Cmds.fresh subs

def Cmds.fresh : Cmds → Bool
  | .nil => true
  | .cons c cs => Cmd.fresh c && Cmds.fresh cs
end

/-- scli.go:76-78: the flag set `Parse` binds with — the command's own, or a
lazily created `flag.NewFlagSet(c.Name(), flag.ExitOnError)` when it has
none. -/
def resolveFS (u : String) (o : Option FlagSet) : FlagSet :=
  match o with
  | some fs => fs
  | none => ⟨nameOfUsage u, .exitOnError⟩

/-- The tail of `Command.Parse` once the node is resolved as terminal
(scli.go:102-115): set `selected` to the node itself, fail with
`NoExecError` when `Exec` is absent, otherwise run the validator (if any),
rendering usage and wrapping its message in `ErrInvalidArguments` on
rejection. -/
def parseTerminal (u : String) (al : List String) (subs : Cmds) (fs : FlagSet)
    (validator : Option (List String → Option String))
    (ex : Option (Ctx → List String → Option GoErr))
    (pos : List String) : Cmd × List String × Outcome :=
  let c' : Cmd := .mk u al subs (some fs) validator ex .self pos
  match ex with
  | none => (c', [], .err (.noExec (nameOfUsage u)))
  | some _ =>
    match validator with
    | some v =>
      match v pos with
      | some msg => (c', [nameOfUsage u], .err (.invalidArgs (some msg)))
      | none => (c', [], .ok)
    | none => (c', [], .ok)

mutual
/-- `Command.Parse` (scli.go:71): returns the mutated tree, the usage-render
events, and the returned error (or exit).  Transcribed step by step: the
`selected != nil` no-op guard; lazy creation of
`flag.NewFlagSet(c.Name(), flag.ExitOnError)`; delegation to the flag
binder, propagating its failure verbatim; recording the positional
remainder in `c.args`; first-match child selection (setting `selected` to
the child and returning the child's own result); and the terminal tail
`parseTerminal`. -/
def Cmd.Parse (c : Cmd) (argv : List String) : Cmd × List String × Outcome :=
  match c with
  | .mk u al subs flagSet validator ex sel args0 =>
    if sel ≠ Sel.unset then (.mk u al subs flagSet validator ex sel args0, [], .ok)
    else
      let fs : FlagSet := resolveFS u flagSet
      let br := parseFlags (nameOfUsage u) fs.errorHandling argv
      match br.out with
      | .ok =>
        match br.positional with
        | tok :: rest =>
          match Cmds.parseFirst subs tok rest with
          | some (i, subs', rs, out) =>
            (.mk u al subs' (some fs) validator ex (.child i) (tok :: rest), rs, out)
          | none => parseTerminal u al subs fs validator ex (tok :: rest)
        | [] => parseTerminal u al subs fs validator ex []
      | _ => (.mk u al subs (some fs) validator ex sel args0, br.renders, br.out)

/-- The subcommand loop of `Parse` (scli.go:94-99): scan `Subcommands` in
declaration order for the first child `selectedBy` the token, recursively
parse it with the remaining arguments, and report its index, the updated
slice and the child's result; `none` when no child matches. -/
def Cmds.parseFirst (cs : Cmds) (tok : String) (rest : List String) :
    Option (Nat × Cmds × List String × Outcome) :=
  match cs with
  | .nil => none
  | .cons d ds =>
    if d.selectedBy tok then
      match Cmd.Parse d rest with
      | (d', rs, out) => some (0, .cons d' ds, rs, out)
    else
      match Cmds.parseFirst ds tok rest with
      | some (i, ds', rs, out) => some (i + 1, .cons d ds', rs, out)
      | none => none
end

mutual
/-- `Command.Run` (scli.go:119): `ErrUnparsed` when `selected` is still
`nil`; a defensive `NoExecError` re-check when the node selected itself
without a work function; invocation of `Exec` (rendering usage afterwards
when the returned error `errors.Is` `flag.ErrHelp` or
`ErrInvalidArguments`); otherwise delegation to the selected child,
propagating its result unchanged.  A `child` index outside the slice cannot
arise from `Parse` (a Go pointer always references a real child); the model
maps that junk state to the `unparsed` failure. -/
def Cmd.Run (c : Cmd) (ctx : Ctx) : List String × Outcome :=
  match c with
  | .mk u _ subs _ _ ex sel args =>
    match sel with
    | .unset => ([], .err .unparsed)
    | .self =>
      match ex with
      | none => ([], .err (.noExec (nameOfUsage u)))
      | some f =>
        match f ctx args with
        | some e =>
          if errorsIsHelp e || errorsIsInvalidArguments e then
            ([nameOfUsage u], .err e)
          else ([], .err e)
        | none => ([], .ok)
    | .child i => Cmds.runAt subs i ctx

/-- Dispatch of `c.selected.Run(ctx)` to the referenced child. -/
def Cmds.runAt (cs : Cmds) (i : Nat) (ctx : Ctx) : List String × Outcome :=
  match cs, i with
  | .nil, _ => ([], .err .unparsed)
  | .cons d _, 0 => Cmd.Run d ctx
  | .cons _ ds, n + 1 => Cmds.runAt ds n ctx
end

/-- `Command.ParseAndRun` (scli.go:146): `Parse`, then `Run` on success,
short-circuiting on the first failure. -/
def Cmd.ParseAndRun (c : Cmd) (ctx : Ctx) (argv : List String) :
    Cmd × List String × Outcome :=
  match Cmd.Parse c argv with
  | (c', rs, .ok) =>
    match Cmd.Run c' ctx with
    | (rs2, out2) => (c', rs ++ rs2, out2)
  | (c', rs, out) => (c', rs, out)

mutual
/-- `isChain c p` holds when `p` is a list of child indices describing a
path of nodes starting at `c` in which each node's `selected` references
the next (a child from its `Subcommands`), terminating at a node whose
`selected` references that node itself. -/
def isChain (c : Cmd) (p : List Nat) : Bool :=
  match c, p with
  | c, [] => decide (c.selected = Sel.self)
  | .mk _ _ subs _ _ _ sel _, i :: p' =>
    decide (sel = Sel.child i) && isChainAt subs i p'

def isChainAt (cs : Cmds) (i : Nat) (p : List Nat) : Bool :=
  match cs, i with
  | .nil, _ => false
  | .cons d _, 0 => isChain d p
  | .cons _ ds, n + 1 => isChainAt ds n p
end

mutual
/-- The node a parsed tree's `selected` chain terminates at (the terminal
target of parsing), when the chain is complete. -/
def terminalOf (c : Cmd) : Option Cmd :=
  match c with
  | .mk u al subs fs v e sel ar =>
    match sel with
    | .unset => none
    | .self => some (.mk u al subs fs v e sel ar)
    | .child i => terminalOfAt subs i

def terminalOfAt (cs : Cmds) (i : Nat) : Option Cmd :=
  match cs, i with
  | .nil, _ => none
  | .cons d _, 0 => terminalOf d
  | .cons _ ds, n + 1 => terminalOfAt ds n
end

/-! ## Concrete example trees

Small command trees mirroring the configurations of `scli_test.go`, used to
evaluate the embedding on concrete inputs. -/

/-- A work function that always succeeds (the test suite's `returnsNil`). -/
def execOk : Ctx → List String → Option GoErr := fun _ _ => none

/-- The test suite's `emptyFlags`: a flag set with no registered flags and
`flag.ContinueOnError`. -/
def emptyFlags : FlagSet := ⟨"emptyFlags", .continueOnError⟩

/-- A child command named `sub` with alias `foobar` (the test suite's
`Aliased Sub` child). -/
def subDemo : Cmd := .mk "sub" ["foobar"] .nil (some emptyFlags) none (some execOk) .unset []

/-- A root command with the single child `subDemo`. -/
def rootDemo : Cmd :=
  .mk "root" [] (.cons subDemo .nil) (some emptyFlags) none (some execOk) .unset []

/-- The `Root Help Flag` scenario with the `FlagSet` left `nil`, so `Parse`
creates one lazily (with `flag.ExitOnError`). -/
def lazyRoot : Cmd := .mk "root" [] .nil none (some NoArgs) (some execOk) .unset []

/-- A root command whose validator `ExactArgs 1` rejects an empty argument
list (the test suite's `Invalid Args` scenario). -/
def oneArgRoot : Cmd :=
  .mk "root3" [] .nil (some emptyFlags) (some (ExactArgs 1)) (some execOk) .unset []

/-- `oneArgRoot` after `Parse []` resolved it as its own terminal. -/
def oneArgRootParsed : Cmd :=
  .mk "root3" [] .nil (some emptyFlags) (some (ExactArgs 1)) (some execOk) .self []

/-- A terminal command with no `Exec` work function. -/
def noExecRoot : Cmd := .mk "root4" [] .nil (some emptyFlags) none none .unset []

/-- A node on which a parse already completed (`selected` points at the
node itself). -/
def parsedLeaf : Cmd := .mk "done" [] .nil (some emptyFlags) none (some execOk) .self ["x"]

/-! ## Unfolding lemmas for `Cmd.Parse` -/

/-- scli.go:72-74: a node whose `selected` pointer is already set is left
untouched and `Parse` reports success. -/
theorem parse_noop (c : Cmd) (argv : List String) (h : c.selected ≠ Sel.unset) :
    c.Parse argv = (c, [], .ok) := by
  cases c with
  | mk u al subs fso val ex sel args0 =>
    simp only [Cmd.selected] at h
    simp only [Cmd.Parse]
    rw [if_pos h]

/-- scli.go:88-90: a failing flag binder makes `Parse` return the binder's
outcome verbatim, with only the binder's own renders, leaving `selected`
and `args` untouched (only the lazily created flag set was recorded). -/
theorem parse_bind_fail (u : String) (al : List String) (subs : Cmds)
    (fso : Option FlagSet) (val : Option (List String → Option String))
    (ex : Option (Ctx → List String → Option GoErr)) (args0 argv : List String)
    (h : (parseFlags (nameOfUsage u) (resolveFS u fso).errorHandling argv).out ≠ Outcome.ok) :
    (Cmd.mk u al subs fso val ex Sel.unset args0).Parse argv =
      (.mk u al subs (some (resolveFS u fso)) val ex Sel.unset args0,
       (parseFlags (nameOfUsage u) (resolveFS u fso).errorHandling argv).renders,
       (parseFlags (nameOfUsage u) (resolveFS u fso).errorHandling argv).out) := by
  have hne : ¬ (Sel.unset ≠ Sel.unset) := by simp
  simp only [Cmd.Parse, if_neg hne]

/-- scli.go:93-99: with a successful binder, a non-empty positional
remainder and a matching child, `Parse` records the remainder, points
`selected` at the matched child and returns the child's own result. -/
theorem parse_child (u : String) (al : List String) (subs : Cmds)
    (fso : Option FlagSet) (val : Option (List String → Option String))
    (ex : Option (Ctx → List String → Option GoErr)) (args0 argv : List String)
    (tok : String) (rest : List String) (i : Nat) (subs' : Cmds)
    (rs : List String) (out : Outcome)
    (hok : (parseFlags (nameOfUsage u) (resolveFS u fso).errorHandling argv).out = Outcome.ok)
    (hpos : (parseFlags (nameOfUsage u) (resolveFS u fso).errorHandling argv).positional = tok :: rest)
    (hfirst : Cmds.parseFirst subs tok rest = some (i, subs', rs, out)) :
    (Cmd.mk u al subs fso val ex Sel.unset args0).Parse argv =
      (.mk u al subs' (some (resolveFS u fso)) val ex (Sel.child i) (tok :: rest), rs, out) := by
  have hne : ¬ (Sel.unset ≠ Sel.unset) := by simp
  simp only [Cmd.Parse, if_neg hne, hok, hpos, hfirst]

/-- scli.go:100-115: with a successful binder and an empty positional
remainder the node itself is terminal. -/
theorem parse_term_nil (u : String) (al : List String) (subs : Cmds)
    (fso : Option FlagSet) (val : Option (List String → Option String))
    (ex : Option (Ctx → List String → Option GoErr)) (args0 argv : List String)
    (hok : (parseFlags (nameOfUsage u) (resolveFS u fso).errorHandling argv).out = Outcome.ok)
    (hpos : (parseFlags (nameOfUsage u) (resolveFS u fso).errorHandling argv).positional = []) :
    (Cmd.mk u al subs fso val ex Sel.unset args0).Parse argv =
      parseTerminal u al subs (resolveFS u fso) val ex [] := by
  have hne : ¬ (Sel.unset ≠ Sel.unset) := by simp
  simp only [Cmd.Parse, if_neg hne, hok, hpos]

/-- scli.go:100-115: with a successful binder and no child matching the
first positional token the node itself is terminal. -/
theorem parse_term_cons (u : String) (al : List String) (subs : Cmds)
    (fso : Option FlagSet) (val : Option (List String → Option String))
    (ex : Option (Ctx → List String → Option GoErr)) (args0 argv : List String)
    (tok : String) (rest : List String)
    (hok : (parseFlags (nameOfUsage u) (resolveFS u fso).errorHandling argv).out = Outcome.ok)
    (hpos : (parseFlags (nameOfUsage u) (resolveFS u fso).errorHandling argv).positional = tok :: rest)
    (hfirst : Cmds.parseFirst subs tok rest = none) :
    (Cmd.mk u al subs fso val ex Sel.unset args0).Parse argv =
      parseTerminal u al subs (resolveFS u fso) val ex (tok :: rest) := by
  have hne : ¬ (Sel.unset ≠ Sel.unset) := by simp
  simp only [Cmd.Parse, if_neg hne, hok, hpos, hfirst]

/-! ## Lemmas about the `Subcommands` slice -/

theorem cmds_get_set_self : ∀ (cs : Cmds) (i : Nat) (d x : Cmd),
    cs.get? i = some d → (cs.set i x).get? i = some x
  | .nil, i, d, x, h => by simp [Cmds.get?] at h
  | .cons c cs, 0, d, x, h => by simp [Cmds.get?, Cmds.set]
  | .cons c cs, n + 1, d, x, h => by
    simp only [Cmds.get?, Cmds.set]
    exact cmds_get_set_self cs n d x h

theorem sizeOf_get?_lt : ∀ (cs : Cmds) (i : Nat) (d : Cmd),
    cs.get? i = some d → sizeOf d < sizeOf cs
  | .nil, i, d, h => by simp [Cmds.get?] at h
  | .cons c cs, 0, d, h => by
    simp only [Cmds.get?, Option.some.injEq] at h
    subst h
    simp only [Cmds.cons.sizeOf_spec]
    omega
  | .cons c cs, n + 1, d, h => by
    simp only [Cmds.get?] at h
    have := sizeOf_get?_lt cs n d h
    simp only [Cmds.cons.sizeOf_spec]
    omega

theorem fresh_parts {u : String} {al : List String} {subs : Cmds}
    {fso : Option FlagSet} {val : Option (List String → Option String)}
    {ex : Option (Ctx → List String → Option GoErr)} {sel : Sel} {args0 : List String}
    (h : Cmd.fresh (.mk u al subs fso val ex sel args0) = true) :
    sel = Sel.unset ∧ Cmds.fresh subs = true := by
  simp only [Cmd.fresh, Bool.and_eq_true, decide_eq_true_eq] at h
  exact h

theorem fresh_get? : ∀ (cs : Cmds) (i : Nat) (d : Cmd),
    Cmds.fresh cs = true → cs.get? i = some d → Cmd.fresh d = true
  | .nil, i, d, _, h => by simp [Cmds.get?] at h
  | .cons c cs, 0, d, hf, h => by
    simp only [Cmds.get?, Option.some.injEq] at h
    simp only [Cmds.fresh, Bool.and_eq_true] at hf
    exact h ▸ hf.1
  | .cons c cs, n + 1, d, hf, h => by
    simp only [Cmds.get?] at h
    simp only [Cmds.fresh, Bool.and_eq_true] at hf
    exact fresh_get? cs n d hf.2 h

theorem isChainAt_some : ∀ (cs : Cmds) (i : Nat) (p : List Nat) (d : Cmd),
    cs.get? i = some d → isChainAt cs i p = isChain d p
  | .nil, i, p, d, h => by simp [Cmds.get?] at h
  | .cons c cs, 0, p, d, h => by
    simp only [Cmds.get?, Option.some.injEq] at h
    subst h
    simp [isChainAt]
  | .cons c cs, n + 1, p, d, h => by
    simp only [Cmds.get?] at h
    simp only [isChainAt]
    exact isChainAt_some cs n p d h

theorem isChainAt_none : ∀ (cs : Cmds) (i : Nat) (p : List Nat),
    cs.get? i = none → isChainAt cs i p = false
  | .nil, i, p, _ => by simp [isChainAt]
  | .cons c cs, 0, p, h => by simp [Cmds.get?] at h
  | .cons c cs, n + 1, p, h => by
    simp only [Cmds.get?] at h
    simp only [isChainAt]
    exact isChainAt_none cs n p h

theorem terminalOfAt_some : ∀ (cs : Cmds) (i : Nat) (d : Cmd),
    cs.get? i = some d → terminalOfAt cs i = terminalOf d
  | .nil, i, d, h => by simp [Cmds.get?] at h
  | .cons c cs, 0, d, h => by
    simp only [Cmds.get?, Option.some.injEq] at h
    subst h
    simp [terminalOfAt]
  | .cons c cs, n + 1, d, h => by
    simp only [Cmds.get?] at h
    simp only [terminalOfAt]
    exact terminalOfAt_some cs n d h

/-- Specification of the subcommand loop: a successful `parseFirst` found
the first (in declaration order) child matched by the token, parsed exactly
that child, and replaced it in the slice. -/
theorem parseFirst_some : ∀ (cs : Cmds) (tok : String) (rest : List String)
    (i : Nat) (cs' : Cmds) (rs : List String) (out : Outcome),
    Cmds.parseFirst cs tok rest = some (i, cs', rs, out) →
    ∃ d d', cs.get? i = some d ∧ d.selectedBy tok = true ∧
      (∀ j dj, j < i → cs.get? j = some dj → dj.selectedBy tok = false) ∧
      Cmd.Parse d rest = (d', rs, out) ∧ cs' = cs.set i d'
  | .nil, tok, rest, i, cs', rs, out, h => by simp [Cmds.parseFirst] at h
  | .cons c cs, tok, rest, i, cs', rs, out, h => by
    cases hsel : c.selectedBy tok with
    | true =>
      rcases hP : Cmd.Parse c rest with ⟨d', rs0, out0⟩
      simp only [Cmds.parseFirst, hsel, if_pos, hP, Option.some.injEq, Prod.mk.injEq] at h
      obtain ⟨hi, hcs, hrs, hout⟩ := h
      subst hi hcs hrs hout
      exact ⟨c, d', by simp [Cmds.get?], hsel, fun j dj hj => absurd hj (by omega),
        hP, by simp [Cmds.set]⟩
    | false =>
      cases hrec : Cmds.parseFirst cs tok rest with
      | none => simp [Cmds.parseFirst, hsel, hrec] at h
      | some q =>
        obtain ⟨i0, ds', rs0, out0⟩ := q
        simp [Cmds.parseFirst, hsel, hrec] at h
        obtain ⟨hi, hcs, hrs, hout⟩ := h
        subst hi hcs hrs hout
        obtain ⟨d, d', hget, hselBy, hleast, hP, hset⟩ :=
          parseFirst_some cs tok rest i0 ds' rs0 out0 hrec
        refine ⟨d, d', by simpa [Cmds.get?] using hget, hselBy, ?_, hP, ?_⟩
        · intro j dj hj hgj
          cases j with
          | zero =>
            simp only [Cmds.get?, Option.some.injEq] at hgj
            exact hgj ▸ hsel
          | succ j0 =>
            simp only [Cmds.get?] at hgj
            exact hleast j0 dj (by omega) hgj
        · simp only [Cmds.set]
          exact congrArg (Cmds.cons c) hset

/-- Converse direction of the subcommand loop: if the child at index `i`
matches and no earlier one does, the loop selects exactly index `i` and
returns that child's parse. -/
theorem parseFirst_of_first_match : ∀ (cs : Cmds) (tok : String) (rest : List String)
    (i : Nat) (d : Cmd),
    cs.get? i = some d → d.selectedBy tok = true →
    (∀ j dj, j < i → cs.get? j = some dj → dj.selectedBy tok = false) →
    Cmds.parseFirst cs tok rest =
      some (i, cs.set i (Cmd.Parse d rest).1, (Cmd.Parse d rest).2.1, (Cmd.Parse d rest).2.2)
  | .nil, tok, rest, i, d, hget, _, _ => by simp [Cmds.get?] at hget
  | .cons c cs, tok, rest, 0, d, hget, hsel, _ => by
    simp only [Cmds.get?, Option.some.injEq] at hget
    subst hget
    rcases hP : Cmd.Parse c rest with ⟨d', rs, out⟩
    simp [Cmds.parseFirst, hsel, hP, Cmds.set]
  | .cons c cs, tok, rest, i + 1, d, hget, hsel, hleast => by
    simp only [Cmds.get?] at hget
    have hc : c.selectedBy tok = false := hleast 0 c (by omega) (by simp [Cmds.get?])
    have hrec := parseFirst_of_first_match cs tok rest i d hget hsel
      (fun j dj hj hgj => hleast (j + 1) dj (by omega) (by simpa [Cmds.get?] using hgj))
    simp [Cmds.parseFirst, hc, hrec, Cmds.set]

/-- A node's `selected` field determines at most one chain: any two
complete `selected` chains from the same node are equal. -/
theorem chain_unique : ∀ (p : List Nat) (c : Cmd) (q : List Nat),
    isChain c p = true → isChain c q = true → p = q
  | [], _, [], _, _ => rfl
  | [], .mk _ _ _ _ _ _ sel _, j :: q', hp, hq => by
    simp [isChain, Cmd.selected] at hp hq
    rw [hp] at hq
    exact absurd hq.1 (by simp)
  | i :: p', .mk _ _ _ _ _ _ sel _, [], hp, hq => by
    simp [isChain, Cmd.selected] at hp hq
    rw [hq] at hp
    exact absurd hp.1 (by simp)
  | i :: p', .mk u al subs fso val ex sel args0, j :: q', hp, hq => by
    simp only [isChain, Bool.and_eq_true, decide_eq_true_eq] at hp hq
    obtain ⟨hpi, hpc⟩ := hp
    obtain ⟨hqj, hqc⟩ := hq
    rw [hpi] at hqj
    have hij : i = j := by
      cases hqj
      rfl
    subst hij
    cases hg : Cmds.get? subs i with
    | none =>
      rw [isChainAt_none subs i p' hg] at hpc
      exact absurd hpc (by simp)
    | some d =>
      rw [isChainAt_some subs i p' d hg] at hpc
      rw [isChainAt_some subs i q' d hg] at hqc
      rw [chain_unique p' d q' hpc hqc]

/-! ## The master lemma about resolution -/

/-- Everything the terminal tail of `Parse` guarantees: success leaves the
one-node chain; and whatever the outcome, the node the result tree's chain
terminates at determines the outcome — `NoExecError` without rendering when
`Exec` is absent, a rendered, wrapped `ErrInvalidArguments` when the
validator rejects. -/
theorem parseTerminal_master (u : String) (al : List String) (subs : Cmds) (fs : FlagSet)
    (val : Option (List String → Option String))
    (ex : Option (Ctx → List String → Option GoErr))
    (pos : List String) (c' : Cmd) (rs : List String) (out : Outcome)
    (h : parseTerminal u al subs fs val ex pos = (c', rs, out)) :
    (out = .ok → ∃ p, isChain c' p = true) ∧
    (∀ t, terminalOf c' = some t →
       ((t.exec = none → out = .err (.noExec t.Name) ∧ rs = []) ∧
        (∀ v msg, t.exec ≠ none → t.argsValidator = some v → v t.args = some msg →
           out = .err (.invalidArgs (some msg)) ∧ rs = [t.Name]))) := by
  cases ex with
  | none =>
    simp only [parseTerminal, Prod.mk.injEq] at h
    obtain ⟨hc, hrs, hout⟩ := h
    subst hc hrs hout
    refine ⟨fun hok => (nomatch hok), fun t ht => ?_⟩
    simp only [terminalOf, Option.some.injEq] at ht
    subst ht
    refine ⟨fun _ => ⟨by simp [Cmd.Name, Cmd.usage], rfl⟩, fun v msg hex _ _ => ?_⟩
    simp [Cmd.exec] at hex
  | some f =>
    cases val with
    | none =>
      simp only [parseTerminal, Prod.mk.injEq] at h
      obtain ⟨hc, hrs, hout⟩ := h
      subst hc hrs hout
      refine ⟨fun _ => ⟨[], by simp [isChain, Cmd.selected]⟩, fun t ht => ?_⟩
      simp only [terminalOf, Option.some.injEq] at ht
      subst ht
      refine ⟨fun hex => by simp [Cmd.exec] at hex, fun v msg _ hval _ => ?_⟩
      simp [Cmd.argsValidator] at hval
    | some v0 =>
      cases hv : v0 pos with
      | none =>
        simp only [parseTerminal, hv, Prod.mk.injEq] at h
        obtain ⟨hc, hrs, hout⟩ := h
        subst hc hrs hout
        refine ⟨fun _ => ⟨[], by simp [isChain, Cmd.selected]⟩, fun t ht => ?_⟩
        simp only [terminalOf, Option.some.injEq] at ht
        subst ht
        refine ⟨fun hex => by simp [Cmd.exec] at hex, fun v msg _ hval hmsg => ?_⟩
        simp only [Cmd.argsValidator, Option.some.injEq] at hval
        subst hval
        simp only [Cmd.args] at hmsg
        rw [hv] at hmsg
        exact absurd hmsg (by simp)
      | some msg0 =>
        simp only [parseTerminal, hv, Prod.mk.injEq] at h
        obtain ⟨hc, hrs, hout⟩ := h
        subst hc hrs hout
        refine ⟨fun hok => (nomatch hok), fun t ht => ?_⟩
        simp only [terminalOf, Option.some.injEq] at ht
        subst ht
        refine ⟨fun hex => by simp [Cmd.exec] at hex, fun v msg _ hval hmsg => ?_⟩
        simp only [Cmd.argsValidator, Option.some.injEq] at hval
        subst hval
        simp only [Cmd.args] at hmsg
        rw [hv] at hmsg
        obtain rfl : msg0 = msg := by
          cases hmsg
          rfl
        exact ⟨rfl, by simp [Cmd.Name, Cmd.usage]⟩

/-- Master induction over a parse of a caller-constructed (fresh) tree:
if the parse succeeds the result tree has a complete `selected` chain, and
whenever the result tree's chain terminates at a node `t`, the outcome and
the rendering are the ones `t` dictates (no `Exec` ⇒ un-rendered
`NoExecError` naming `t`; rejecting validator ⇒ rendered, wrapped
`ErrInvalidArguments`).  Bounded by `sizeOf` for the induction. -/
theorem parse_master_n : ∀ (N : Nat) (c : Cmd) (argv : List String) (c' : Cmd)
    (rs : List String) (out : Outcome),
    sizeOf c ≤ N → Cmd.fresh c = true → Cmd.Parse c argv = (c', rs, out) →
    ((out = .ok → ∃ p, isChain c' p = true) ∧
     (∀ t, terminalOf c' = some t →
        ((t.exec = none → out = .err (.noExec t.Name) ∧ rs = []) ∧
         (∀ v msg, t.exec ≠ none → t.argsValidator = some v → v t.args = some msg →
            out = .err (.invalidArgs (some msg)) ∧ rs = [t.Name])))) := by
  intro N
  induction N with
  | zero =>
    intro c argv c' rs out hsz _ _
    cases c with
    | mk u al subs fso val ex sel args0 =>
      simp only [Cmd.mk.sizeOf_spec] at hsz
      omega
  | succ N ih =>
    intro c argv c' rs out hsz hfresh hP
    cases c with
    | mk u al subs fso val ex sel args0 =>
      obtain ⟨hsel, hfsubs⟩ := fresh_parts hfresh
      subst hsel
      by_cases hout : (parseFlags (nameOfUsage u) (resolveFS u fso).errorHandling argv).out
          = Outcome.ok
      · cases hpos : (parseFlags (nameOfUsage u) (resolveFS u fso).errorHandling argv).positional
            with
        | nil =>
          rw [parse_term_nil u al subs fso val ex args0 argv hout hpos] at hP
          exact parseTerminal_master u al subs (resolveFS u fso) val ex [] c' rs out hP
        | cons tok rest =>
          cases hfirst : Cmds.parseFirst subs tok rest with
          | none =>
            rw [parse_term_cons u al subs fso val ex args0 argv tok rest hout hpos hfirst] at hP
            exact parseTerminal_master u al subs (resolveFS u fso) val ex (tok :: rest)
              c' rs out hP
          | some q =>
            obtain ⟨i, subs', rs0, out0⟩ := q
            rw [parse_child u al subs fso val ex args0 argv tok rest i subs' rs0 out0
              hout hpos hfirst] at hP
            simp only [Prod.mk.injEq] at hP
            obtain ⟨hc, hrs, ho⟩ := hP
            subst hc hrs ho
            obtain ⟨d, d', hget, hselBy, hleast, hPd, hset⟩ :=
              parseFirst_some subs tok rest i subs' rs0 out0 hfirst
            have hszd : sizeOf d ≤ N := by
              have h1 := sizeOf_get?_lt subs i d hget
              simp only [Cmd.mk.sizeOf_spec] at hsz
              omega
            have IH := ih d rest d' rs0 out0 hszd (fresh_get? subs i d hfsubs hget) hPd
            have hget' : Cmds.get? subs' i = some d' := by
              rw [hset]
              exact cmds_get_set_self subs i d d' hget
            constructor
            · intro hok
              obtain ⟨p, hp⟩ := IH.1 hok
              refine ⟨i :: p, ?_⟩
              simp [isChain, isChainAt_some subs' i p d' hget', hp]
            · intro t ht
              simp only [terminalOf] at ht
              rw [terminalOfAt_some subs' i d' hget'] at ht
              exact IH.2 t ht
      · rw [parse_bind_fail u al subs fso val ex args0 argv hout] at hP
        simp only [Prod.mk.injEq] at hP
        obtain ⟨hc, hrs, ho⟩ := hP
        subst hc hrs ho
        constructor
        · intro hok
          exact absurd hok hout
        · intro t ht
          simp [terminalOf] at ht

/-- `parse_master_n` instantiated at the tree's own size. -/
theorem parse_master (c : Cmd) (argv : List String) (c' : Cmd)
    (rs : List String) (out : Outcome)
    (hfresh : Cmd.fresh c = true) (hP : Cmd.Parse c argv = (c', rs, out)) :
    ((out = .ok → ∃ p, isChain c' p = true) ∧
     (∀ t, terminalOf c' = some t →
        ((t.exec = none → out = .err (.noExec t.Name) ∧ rs = []) ∧
         (∀ v msg, t.exec ≠ none → t.argsValidator = some v → v t.args = some msg →
            out = .err (.invalidArgs (some msg)) ∧ rs = [t.Name])))) :=
  parse_master_n (sizeOf c) c argv c' rs out (Nat.le_refl _) hfresh hP

/-- Whatever the terminal outcome, the terminal tail of `Parse` leaves the
node pointing at itself with the positional remainder recorded. -/
theorem parseTerminal_fst (u : String) (al : List String) (subs : Cmds) (fs : FlagSet)
    (val : Option (List String → Option String))
    (ex : Option (Ctx → List String → Option GoErr)) (pos : List String) :
    (parseTerminal u al subs fs val ex pos).1 = .mk u al subs (some fs) val ex Sel.self pos := by
  cases ex with
  | none => rfl
  | some f =>
    cases val with
    | none => rfl
    | some v =>
      cases hv : v pos with
      | none => simp [parseTerminal, hv]
      | some m => simp [parseTerminal, hv]

/-! ## Claims -/

/-- C1 (code bug): the claim says a help request raised by the flag binder
is returned unchanged — `flag.ErrHelp` with usage rendered — even when the
`FlagSet` was lazily created by `Parse` itself.  The code creates the lazy
flag set with `flag.ExitOnError` (scli.go:77), so `-h` renders usage and
then calls `os.Exit(0)`: `Parse` never returns, and no `flag.ErrHelp`
reaches the caller.  This theorem evaluates the embedding at the failing
input: root with `ArgsValidator: NoArgs`, no `FlagSet`, arguments
`["-h"]`. -/
theorem c1_lazy_flagset_help_exits :
    Cmd.Parse lazyRoot ["-h"] =
      (.mk "root" [] .nil (some ⟨"root", .exitOnError⟩) (some NoArgs) (some execOk)
        Sel.unset [],
       ["root"], .exited 0) ∧
    (Cmd.Parse lazyRoot ["-h"]).2.2 ≠ Outcome.err GoErr.errHelp :=
  ⟨by rfl, by decide⟩

/-- C2: for every caller-constructed command tree and argument vector, if
`Parse` on the root returns success there is exactly one chain of nodes
from the root in which each node's `selected` references the next (a child
from its `Subcommands`), terminating at a node whose `selected` references
itself. -/
theorem c2_unique_selected_chain (c : Cmd) (argv : List String) (c' : Cmd)
    (rs : List String) (hfresh : Cmd.fresh c = true)
    (hP : Cmd.Parse c argv = (c', rs, .ok)) :
    ∃! p, isChain c' p = true := by
  obtain ⟨p, hp⟩ := (parse_master c argv c' rs .ok hfresh hP).1 rfl
  exact ⟨p, hp, fun q hq => chain_unique q c' p hq hp⟩

/-- Witness for C2: parsing `rootDemo` with `["sub"]` succeeds and leaves
exactly one selected chain. -/
theorem c2_unique_selected_chain_witness :
    Cmd.fresh rootDemo = true ∧
    ∃! p, isChain (Cmd.Parse rootDemo ["sub"]).1 p = true :=
  ⟨by decide,
   c2_unique_selected_chain rootDemo ["sub"] (Cmd.Parse rootDemo ["sub"]).1
     (Cmd.Parse rootDemo ["sub"]).2.1 (by decide) (by rfl)⟩

/-- C3: for every caller-constructed tree, when `Parse` resolves a terminal
node that has both a validator and an `Exec`, and the validator rejects the
remaining positional arguments with message `msg`, the parse renders usage
exactly once, at that node, and returns an error wrapping `msg` that is
matchable as `ErrInvalidArguments` by `errors.Is` (no string comparison),
whose message is the wrapped `"invalid arguments: " ++ msg`. -/
theorem c3_invalid_args_rendered_and_wrapped (c : Cmd) (argv : List String)
    (c' t : Cmd) (rs : List String) (out : Outcome)
    (v : List String → Option String) (msg : String)
    (hfresh : Cmd.fresh c = true) (hP : Cmd.Parse c argv = (c', rs, out))
    (ht : terminalOf c' = some t) (hex : t.exec ≠ none)
    (hval : t.argsValidator = some v) (hmsg : v t.args = some msg) :
    out = .err (.invalidArgs (some msg)) ∧ rs = [t.Name] ∧
    errorsIsInvalidArguments (.invalidArgs (some msg)) = true ∧
    goErrMessage (.invalidArgs (some msg)) = "invalid arguments: " ++ msg := by
  obtain ⟨h1, h2⟩ := ((parse_master c argv c' rs out hfresh hP).2 t ht).2 v msg hex hval hmsg
  exact ⟨h1, h2, rfl, rfl⟩

/-- Witness for C3: `oneArgRoot` (validator `ExactArgs 1`) parsed with no
arguments fails with the rendered, wrapped invalid-arguments error. -/
theorem c3_invalid_args_witness :
    Cmd.fresh oneArgRoot = true ∧
    ((Cmd.Parse oneArgRoot []).2.2 =
       .err (.invalidArgs (some "requires exactly 1 arg(s), received 0")) ∧
     (Cmd.Parse oneArgRoot []).2.1 = [Cmd.Name oneArgRootParsed] ∧
     errorsIsInvalidArguments
       (.invalidArgs (some "requires exactly 1 arg(s), received 0")) = true ∧
     goErrMessage (.invalidArgs (some "requires exactly 1 arg(s), received 0")) =
       "invalid arguments: " ++ "requires exactly 1 arg(s), received 0") :=
  ⟨by decide,
   c3_invalid_args_rendered_and_wrapped oneArgRoot [] (Cmd.Parse oneArgRoot []).1
     oneArgRootParsed (Cmd.Parse oneArgRoot []).2.1 (Cmd.Parse oneArgRoot []).2.2
     (ExactArgs 1) "requires exactly 1 arg(s), received 0"
     (by decide) (by rfl) (by rfl) (fun h => nomatch h) rfl rfl⟩

/-- C4: for every caller-constructed tree and argument vector, if `Parse`
resolves to a terminal node whose `Exec` is unset, it returns the
`NoExecError` carrying that node's identity (its name), and no usage
rendering is triggered for that failure. -/
theorem c4_no_exec_failure (c : Cmd) (argv : List String) (c' t : Cmd)
    (rs : List String) (out : Outcome)
    (hfresh : Cmd.fresh c = true) (hP : Cmd.Parse c argv = (c', rs, out))
    (ht : terminalOf c' = some t) (hexec : t.exec = none) :
    out = .err (.noExec t.Name) ∧ rs = [] :=
  ((parse_master c argv c' rs out hfresh hP).2 t ht).1 hexec

/-- Witness for C4: parsing `noExecRoot` (no work function) with no
arguments fails with `NoExecError` naming `root4`, rendering nothing. -/
theorem c4_no_exec_witness :
    Cmd.fresh noExecRoot = true ∧
    ((Cmd.Parse noExecRoot []).2.2 =
       .err (.noExec (Cmd.Name (Cmd.Parse noExecRoot []).1)) ∧
     (Cmd.Parse noExecRoot []).2.1 = []) :=
  ⟨by decide,
   c4_no_exec_failure noExecRoot [] (Cmd.Parse noExecRoot []).1
     (Cmd.Parse noExecRoot []).1 (Cmd.Parse noExecRoot []).2.1
     (Cmd.Parse noExecRoot []).2.2 (by decide) (by rfl) (by rfl) (by rfl)⟩

/-- C5: `Run` on a node whose `selected` pointer was never set (no `Parse`
has been invoked on it) always returns `ErrUnparsed`, whatever the tree
shape and the context argument. -/
theorem c5_run_unparsed (c : Cmd) (ctx : Ctx) (h : c.selected = Sel.unset) :
    c.Run ctx = ([], .err .unparsed) := by
  cases c with
  | mk u al subs fso val ex sel args0 =>
    simp only [Cmd.selected] at h
    subst h
    simp [Cmd.Run]

/-- Witness for C5: running the never-parsed `noExecRoot` yields
`ErrUnparsed`. -/
theorem c5_run_unparsed_witness :
    Cmd.selected noExecRoot = Sel.unset ∧
    Cmd.Run noExecRoot ⟨0⟩ = ([], .err .unparsed) :=
  ⟨by decide, c5_run_unparsed noExecRoot ⟨0⟩ (by decide)⟩

/-- C6 (counterexample): the claim says `OnlyValidArgs([])` is a validator
function that, applied to any argument list, yields success and never
panics.  In the code `OnlyValidArgs` with an empty allowed list returns the
`nil` validator (args.go:62-64) — no function at all; invoking that value
directly (for example through `CombineValidator`) would dereference `nil`
and panic. -/
theorem c6_counterexample : ¬ ∃ f, OnlyValidArgs [] = some f := by
  rintro ⟨f, hf⟩
  exact nomatch hf

/-- C6 (amended): `OnlyValidArgs([])` returns the Go `nil` validator; a
`Command` whose `ArgsValidator` is that `nil` value skips validation
(`scli.go:108`), so through `Parse` no argument list is ever rejected —
in particular a terminal node with a work function and this validator
always parses successfully. -/
theorem c6_only_valid_args_empty_is_nil :
    OnlyValidArgs [] = none ∧
    (∀ args, runArgsValidator (OnlyValidArgs []) args = none) ∧
    (∀ (u : String) (al : List String) (subs : Cmds) (fs : FlagSet)
       (ex : Option (Ctx → List String → Option GoErr)) (pos : List String),
       ex ≠ none →
       parseTerminal u al subs fs (OnlyValidArgs []) ex pos =
         (.mk u al subs (some fs) (OnlyValidArgs []) ex Sel.self pos, [], .ok)) := by
  refine ⟨rfl, fun args => rfl, fun u al subs fs ex pos hex => ?_⟩
  cases ex with
  | none => exact absurd rfl hex
  | some f => rfl

/-- Witness for C6: a terminal node with a work function and validator
`OnlyValidArgs []` parses successfully on a non-empty argument list. -/
theorem c6_only_valid_args_witness :
    (some execOk ≠ (none : Option (Ctx → List String → Option GoErr))) ∧
    parseTerminal "root" [] .nil emptyFlags (OnlyValidArgs []) (some execOk) ["anything"] =
      (.mk "root" [] .nil (some emptyFlags) (OnlyValidArgs []) (some execOk)
        Sel.self ["anything"], [], .ok) :=
  ⟨fun h => (nomatch h),
   c6_only_valid_args_empty_is_nil.2.2 "root" [] .nil emptyFlags (some execOk)
     ["anything"] (fun h => nomatch h)⟩

/-- C7: child selection during `Parse` is case-insensitive and alias-aware:
`selectedBy` holds exactly when the token case-insensitively equals the
canonical name or one of the aliases; the first child in declaration order
with a match is the one `selected` ends up referencing; and the concrete
child named `sub` with alias `foobar` is selected by each of `sub`, `SUB`,
`foobar` and `FOOBAR`. -/
theorem c7_child_selection :
    (∀ (d : Cmd) (tok : String),
       d.selectedBy tok = true ↔
         (eqFold tok d.Name = true ∨ ∃ a ∈ d.aliases, eqFold tok a = true)) ∧
    (∀ (u : String) (al : List String) (subs : Cmds) (fso : Option FlagSet)
       (val : Option (List String → Option String))
       (ex : Option (Ctx → List String → Option GoErr))
       (args0 argv : List String) (tok : String) (rest : List String) (i : Nat) (d : Cmd),
       (parseFlags (nameOfUsage u) (resolveFS u fso).errorHandling argv).out = .ok →
       (parseFlags (nameOfUsage u) (resolveFS u fso).errorHandling argv).positional
         = tok :: rest →
       Cmds.get? subs i = some d → d.selectedBy tok = true →
       (∀ j dj, j < i → Cmds.get? subs j = some dj → dj.selectedBy tok = false) →
       ((Cmd.mk u al subs fso val ex Sel.unset args0).Parse argv).1.selected
         = Sel.child i) ∧
    ((Cmd.Parse rootDemo ["sub"]).1.selected = Sel.child 0 ∧
     (Cmd.Parse rootDemo ["SUB"]).1.selected = Sel.child 0 ∧
     (Cmd.Parse rootDemo ["foobar"]).1.selected = Sel.child 0 ∧
     (Cmd.Parse rootDemo ["FOOBAR"]).1.selected = Sel.child 0) := by
  refine ⟨?_, ?_, by decide, by decide, by decide, by decide⟩
  · intro d tok
    simp [Cmd.selectedBy, List.any_eq_true]
  · intro u al subs fso val ex args0 argv tok rest i d hok hpos hget hsel hleast
    have hfm := parseFirst_of_first_match subs tok rest i d hget hsel hleast
    rw [parse_child u al subs fso val ex args0 argv tok rest i
      (Cmds.set subs i (Cmd.Parse d rest).1) (Cmd.Parse d rest).2.1
      (Cmd.Parse d rest).2.2 hok hpos hfm]
    rfl

/-- Witness for C7: the first-match component applied to `rootDemo`'s
single child and the token `FOOBAR`. -/
theorem c7_child_selection_witness :
    Cmds.get? (Cmds.cons subDemo Cmds.nil) 0 = some subDemo ∧
    subDemo.selectedBy "FOOBAR" = true ∧
    ((Cmd.mk "root" [] (.cons subDemo .nil) (some emptyFlags) none (some execOk)
        Sel.unset []).Parse ["FOOBAR"]).1.selected = Sel.child 0 :=
  ⟨rfl, by decide,
   c7_child_selection.2.1 "root" [] (Cmds.cons subDemo Cmds.nil) (some emptyFlags)
     none (some execOk) [] ["FOOBAR"] "FOOBAR" [] 0 subDemo (by rfl) (by rfl) (by rfl)
     (by decide) (fun j dj hj _ => absurd hj (by omega))⟩

/-- C8: `CombineValidator` runs its validators in declaration order: if
none fails it succeeds, and if some fails it returns exactly the error of
the first failing one (every earlier validator having succeeded), never a
later one's. -/
theorem c8_combine_first_failure :
    (∀ (vs : List (List String → Option String)) (args : List String),
       (∀ v ∈ vs, v args = none) → CombineValidator vs args = none) ∧
    (∀ (vs : List (List String → Option String)) (args : List String) (i : Nat)
       (v : List String → Option String) (e : String),
       vs.get? i = some v → v args = some e →
       (∀ j w, j < i → vs.get? j = some w → w args = none) →
       CombineValidator vs args = some e) := by
  constructor
  · intro vs
    induction vs with
    | nil => intro args _; rfl
    | cons v rest ih =>
      intro args h
      have hv : v args = none := h v (by simp)
      simp only [CombineValidator, hv]
      exact ih args (fun w hw => h w (by simp [hw]))
  · intro vs
    induction vs with
    | nil => intro args i v e hget; simp at hget
    | cons v0 rest ih =>
      intro args i v e hget hv hleast
      cases i with
      | zero =>
        simp only [List.get?, Option.some.injEq] at hget
        subst hget
        simp only [CombineValidator, hv]
      | succ n =>
        have h0 : v0 args = none := hleast 0 v0 (by omega) rfl
        simp only [List.get?] at hget
        simp only [CombineValidator, h0]
        exact ih args n v e hget hv
          (fun j w hj hgj => hleast (j + 1) w (by omega) (by simpa using hgj))

/-- Witness for C8: two validators ordered to fail in a known sequence —
`ExactArgs 1` then `ExactArgs 2`, both failing on `[]` — produce exactly
the first one's error. -/
theorem c8_combine_first_failure_witness :
    (ExactArgs 1) [] = some "requires exactly 1 arg(s), received 0" ∧
    (ExactArgs 2) [] = some "requires exactly 2 arg(s), received 0" ∧
    CombineValidator [ExactArgs 1, ExactArgs 2] []
      = some "requires exactly 1 arg(s), received 0" :=
  ⟨rfl, rfl,
   c8_combine_first_failure.2 [ExactArgs 1, ExactArgs 2] [] 0 (ExactArgs 1)
     "requires exactly 1 arg(s), received 0" rfl rfl
     (fun j w hj _ => absurd hj (by omega))⟩

/-- C9: `Parse` is single-shot and idempotent — on a node whose `selected`
pointer is already set, `Parse` with any argument vector returns success
immediately and the node is returned verbatim (`selected`, `args` and
`FlagSet` unchanged, nothing rendered, nothing re-run). -/
theorem c9_parse_idempotent (c : Cmd) (argv : List String)
    (h : c.selected ≠ Sel.unset) :
    c.Parse argv = (c, [], .ok) :=
  parse_noop c argv h

/-- Witness for C9: re-parsing the already-parsed `parsedLeaf` with fresh
arguments is a success no-op. -/
theorem c9_parse_idempotent_witness :
    Cmd.selected parsedLeaf ≠ Sel.unset ∧
    Cmd.Parse parsedLeaf ["other", "args"] = (parsedLeaf, [], .ok) :=
  ⟨by decide, c9_parse_idempotent parsedLeaf ["other", "args"] (by decide)⟩

/-- C10: parse failure is not atomic with respect to parse state — when a
node resolves itself as terminal and then fails (no `Exec`, or validator
rejection), its `selected` pointer has nonetheless been set to the node
itself; a second `Parse` on the resulting node is an immediate success
no-op, and a subsequent `Run` does not return the tree-unparsed failure
(provided the node's own work function, if invoked, does not itself return
`ErrUnparsed`). -/
theorem c10_parse_failure_not_atomic
    (u : String) (al : List String) (subs : Cmds) (fso : Option FlagSet)
    (val : Option (List String → Option String))
    (ex : Option (Ctx → List String → Option GoErr))
    (args0 argv pos : List String)
    (hok : (parseFlags (nameOfUsage u) (resolveFS u fso).errorHandling argv).out = .ok)
    (hpos : (parseFlags (nameOfUsage u) (resolveFS u fso).errorHandling argv).positional = pos)
    (hnc : pos = [] ∨ ∃ tok rest, pos = tok :: rest ∧ Cmds.parseFirst subs tok rest = none)
    (hfail : ex = none ∨ (ex ≠ none ∧ ∃ v msg, val = some v ∧ v pos = some msg)) :
    ((Cmd.mk u al subs fso val ex Sel.unset args0).Parse argv).1 =
        .mk u al subs (some (resolveFS u fso)) val ex Sel.self pos ∧
    (∃ e, ((Cmd.mk u al subs fso val ex Sel.unset args0).Parse argv).2.2 = .err e) ∧
    (∀ argv2, (Cmd.mk u al subs (some (resolveFS u fso)) val ex Sel.self pos).Parse argv2 =
        (.mk u al subs (some (resolveFS u fso)) val ex Sel.self pos, [], .ok)) ∧
    (∀ ctx : Ctx, (∀ f, ex = some f → f ctx pos ≠ some .unparsed) →
        ((Cmd.mk u al subs (some (resolveFS u fso)) val ex Sel.self pos).Run ctx).2 ≠
          .err .unparsed) := by
  have hP : (Cmd.mk u al subs fso val ex Sel.unset args0).Parse argv
      = parseTerminal u al subs (resolveFS u fso) val ex pos := by
    rcases hnc with h0 | ⟨tok, rest, hpc, hfirst⟩
    · subst h0
      exact parse_term_nil u al subs fso val ex args0 argv hok hpos
    · subst hpc
      exact parse_term_cons u al subs fso val ex args0 argv tok rest hok hpos hfirst
  refine ⟨by rw [hP]; exact parseTerminal_fst u al subs (resolveFS u fso) val ex pos,
    ?_, ?_, ?_⟩
  · rw [hP]
    rcases hfail with hexn | ⟨hexs, v, msg, hval, hmsg⟩
    · subst hexn
      exact ⟨.noExec (nameOfUsage u), rfl⟩
    · cases ex with
      | none => exact absurd rfl hexs
      | some f =>
        subst hval
        refine ⟨.invalidArgs (some msg), ?_⟩
        simp [parseTerminal, hmsg]
  · intro argv2
    exact parse_noop _ argv2 (by simp [Cmd.selected])
  · intro ctx hnu
    cases ex with
    | none => simp [Cmd.Run]
    | some f =>
      cases hf : f ctx pos with
      | none => simp [Cmd.Run, hf]
      | some e =>
        have he : e ≠ GoErr.unparsed := fun h => hnu f rfl (by rw [hf, h])
        cases hb : errorsIsHelp e || errorsIsInvalidArguments e with
        | true => simp [Cmd.Run, hf, hb, he]
        | false => simp [Cmd.Run, hf, hb, he]

/-- Witness for C10: `oneArgRoot`'s configuration parsed with no arguments
fails the validator, yet its `selected` is set and re-parsing is a success
no-op. -/
theorem c10_parse_failure_not_atomic_witness :
    ((Cmd.mk "root3" [] .nil (some emptyFlags) (some (ExactArgs 1)) (some execOk)
        Sel.unset []).Parse []).1 =
      .mk "root3" [] .nil (some (resolveFS "root3" (some emptyFlags)))
        (some (ExactArgs 1)) (some execOk) Sel.self [] ∧
    (∀ argv2, (Cmd.mk "root3" [] .nil (some (resolveFS "root3" (some emptyFlags)))
        (some (ExactArgs 1)) (some execOk) Sel.self []).Parse argv2 =
      (.mk "root3" [] .nil (some (resolveFS "root3" (some emptyFlags)))
        (some (ExactArgs 1)) (some execOk) Sel.self [], [], .ok)) :=
  ⟨(c10_parse_failure_not_atomic "root3" [] .nil (some emptyFlags)
      (some (ExactArgs 1)) (some execOk) [] [] [] (by rfl) (by rfl) (Or.inl rfl)
      (Or.inr ⟨fun h => (nomatch h), ExactArgs 1,
        "requires exactly 1 arg(s), received 0", rfl, rfl⟩)).1,
   (c10_parse_failure_not_atomic "root3" [] .nil (some emptyFlags)
      (some (ExactArgs 1)) (some execOk) [] [] [] (by rfl) (by rfl) (Or.inl rfl)
      (Or.inr ⟨fun h => (nomatch h), ExactArgs 1,
        "requires exactly 1 arg(s), received 0", rfl, rfl⟩)).2.2.1⟩
